import Mathlib

/-!
Verification of the `regrad` reverse-mode automatic-differentiation engine
(`src/value.rs`, `src/tensor.rs`, `src/main.rs`).

Shallow embedding conventions:

* `f64` is modelled by the exact rationals `ℚ`; every numeric literal that
  appears in the source or in the claims (1.2, 3.4, -1.0, ...) is exactly
  representable, and all the concrete computations the claims mention are
  asserted by the repository itself to hold with exact `f64` equality.
* The shared mutable graph (`Rc<RefCell<ValueInternal>>`) is modelled by an
  explicit store: a `Value` is an index (`Nat`) into a `List Node`, and every
  mutation (`gradient += ...`, `data += ...`, `gradient = 1.0`) is an explicit
  store update.  Operation builders allocate at the end of the store, so an
  operand index is always strictly smaller than the index of its consumer,
  mirroring the acyclicity argument of the source.
* The two closures installed as propagation rules (`add`'s and `mul`'s
  `BackPropagteFn`) are the only function values the program ever stores, so
  the `propagate: Option<BackPropagteFn>` field is modelled by
  `Option PropFn` with `PropFn` a two-element enumeration interpreted by
  `runProp`.
* `HashSet<Value>` (the visited set of `backward`) hashes and compares the
  *current* structural state reached through the `Rc` handle
  (`impl Hash for ValueInternal` hashes data, gradient, label, operation and,
  recursively, the operands; `PartialEq` compares the same fields).  A stored
  element sits in the bucket of its insert-time hash while a lookup probes the
  bucket of the probe's current hash, and bucket residents are compared with
  `PartialEq` on current states.  We model a hash as the full structural
  snapshot (`Snap`), i.e. hashing is treated as injective: `contains` succeeds
  iff some stored entry's insert-time snapshot equals the probe's current
  snapshot and the entry's current state equals the probe's current state.
* Rust panics (`assert_eq!` in `Tensor::reshape` and the element-wise tensor
  operations) are modelled with `Option`: `none` is the panic.
* `backward`'s `while` loop is run on fuel; `none` means the fuel was
  exhausted.  All runs in this file terminate with fuel to spare.
* As ghost instrumentation only, the loop also returns the list of node
  indices whose propagation rule was invoked, in invocation order; the store
  evolution is exactly that of the source.
-/

/- Batteries marks the rational operations irreducible to steer `simp`;
kernel evaluation of the model needs them unfolded. -/
attribute [local semireducible] Rat.add Rat.mul Rat.sub Rat.inv Rat.ofScientific

namespace Regrad

/-- `enum Operation { Add, Sub, Mul }` from `value.rs`. -/
inductive Operation where
  | add : Operation
  | sub : Operation
  | mul : Operation
deriving DecidableEq, Repr

/-- The two `BackPropagteFn` closures that exist in the program: the one
installed by `add` and the one installed by `mul` (`neg` and `sub` reuse
them). -/
inductive PropFn where
  | addFn : PropFn
  | mulFn : PropFn
deriving DecidableEq, Repr

/-- `ValueInternal` from `value.rs`: data, gradient (initially 0), label,
operation tag, operand indices, optional propagation rule. -/
structure Node where
  data : ℚ
  gradient : ℚ
  label : Option String
  operation : Option Operation
  previous : List Nat
  propagate : Option PropFn
deriving DecidableEq, Repr

/-- The store of allocated nodes; a `Value` is an index into it. -/
abbrev Store := List Node

/-- Dereference a node index (total, with a junk default for indices the
program never produces). -/
def getN : Store → Nat → Node
  | [], _ => ⟨0, 0, none, none, [], none⟩
  | n :: _, 0 => n
  | _ :: rest, i + 1 => getN rest i

/-- Point update of the store at one index. -/
def modifyN : Store → Nat → (Node → Node) → Store
  | [], _, _ => []
  | n :: rest, 0, f => f n :: rest
  | n :: rest, i + 1, f => n :: modifyN rest i f

/-- `gradient += g` on one node (the accumulation in the propagation rules). -/
def addGrad (s : Store) (i : Nat) (g : ℚ) : Store :=
  modifyN s i (fun n => { n with gradient := n.gradient + g })

/-- `gradient = g` on one node (`zero_grad`, and the root seed of
`backward`). -/
def setGrad (s : Store) (i : Nat) (g : ℚ) : Store :=
  modifyN s i (fun n => { n with gradient := g })

/-- Allocate a fresh node at the end of the store, returning its index. -/
def alloc (s : Store) (n : Node) : Store × Nat :=
  (s ++ [n], s.length)

/-- `Value::from` / `ValueInternal::new(data, None, None, vec![], None)`:
a leaf with zero gradient, no operation, no operands, no rule. -/
def leafB (s : Store) (d : ℚ) : Store × Nat :=
  alloc s ⟨d, 0, none, none, [], none⟩

/-- Shape shared by the two binary builders of `value.rs`: read both operand
nodes from the current store, allocate one new node built from them. -/
def binB (mk : Node → Node → Nat → Nat → Node) (s : Store) (u v : Nat) :
    Store × Nat :=
  alloc s (mk (getN s u) (getN s v) u v)

/-- The node `fn add` allocates: forward sum, gradient 0, operation `Add`,
operands `[u, v]`, the add propagation rule. -/
def addMk (nu nv : Node) (u v : Nat) : Node :=
  ⟨nu.data + nv.data, 0, none, some Operation.add, [u, v], some PropFn.addFn⟩

/-- `fn add(u, v)` from `value.rs`. -/
def addB : Store → Nat → Nat → Store × Nat :=
  binB addMk

/-- The node `fn mul` allocates: forward product, gradient 0, operation `Mul`,
operands `[u, v]`, the mul propagation rule. -/
def mulMk (nu nv : Node) (u v : Nat) : Node :=
  ⟨nu.data * nv.data, 0, none, some Operation.mul, [u, v], some PropFn.mulFn⟩

/-- `fn mul(u, v)` from `value.rs`. -/
def mulB : Store → Nat → Nat → Store × Nat :=
  binB mulMk

/-- `impl Neg for Value`: `mul(&self, &Value::from(-1.0))` — allocates the
constant `-1` leaf, then multiplies. -/
def negB (s : Store) (u : Nat) : Store × Nat :=
  let p := leafB s (-1)
  mulB p.1 u p.2

/-- `impl Sub for Value`: `add(&self, &(-rhs))`. -/
def subB (s : Store) (u v : Nat) : Store × Nat :=
  let p := negB s v
  addB p.1 u p.2

/-- The recursive structural state of a node as read by
`impl Hash for ValueInternal` and `impl PartialEq for ValueInternal`:
data, gradient, label, operation, and the states of the operands
(the `propagate` field takes part in neither). -/
inductive Snap where
  | mk : ℚ → ℚ → Option String → Option Operation → List Snap → Snap

/-- Structural equality of operation tags (closed enumeration). -/
def obeq : Option Operation → Option Operation → Bool
  | none, none => true
  | some Operation.add, some Operation.add => true
  | some Operation.sub, some Operation.sub => true
  | some Operation.mul, some Operation.mul => true
  | _, _ => false

/-- Structural equality of labels. -/
def lbeq : Option String → Option String → Bool
  | none, none => true
  | some a, some b => a == b
  | _, _ => false

/-- Pointwise conjunction over two lists (false on a length mismatch). -/
def pairwiseAll (f : Snap → Snap → Bool) : List Snap → List Snap → Bool
  | [], [] => true
  | a :: as1, b :: bs1 => f a b && pairwiseAll f as1 bs1
  | _, _ => false

/-- Structural equality of snapshots, in the field order of the source's
`PartialEq`/`Hash` implementations.  The fuel only serves Lean's termination
checker: it always exceeds the snapshot depth at every call site. -/
def snapBeqF : Nat → Snap → Snap → Bool
  | 0, _, _ => false
  | fuel + 1, Snap.mk d g l o p, Snap.mk d1 g1 l1 o1 p1 =>
      decide (d = d1) &&
        (decide (g = g1) &&
          (lbeq l l1 && (obeq o o1 && pairwiseAll (snapBeqF fuel) p p1)))

/-- Take the structural snapshot of node `i`, recursing into operands; the
fuel only serves Lean's termination checker — operand indices strictly
decrease, so fuel `s.length` always suffices for builder-made stores. -/
def snap (s : Store) : Nat → Nat → Snap
  | 0, _ => Snap.mk 0 0 none none []
  | fuel + 1, i =>
      let n := getN s i
      Snap.mk n.data n.gradient n.label n.operation
        (n.previous.map (snap s fuel))

/-- Snapshot with the canonical fuel. -/
def snapN (s : Store) (i : Nat) : Snap :=
  snap s s.length i

/-- The `visited.contains(&value)` test of `backward`: some stored entry whose
insert-time hash (= snapshot) equals the probe's current hash, and whose
current state equals the probe's current state. -/
def containsB (s : Store) (vis : List (Nat × Snap)) (i : Nat) : Bool :=
  vis.any (fun p =>
    snapBeqF (s.length + 1) p.2 (snapN s i) &&
      snapBeqF (s.length + 1) (snapN s p.1) (snapN s i))

/-- The two propagation closures of `value.rs`, acting on the store.  `n` is
the borrow of the popped node (`&Ref<ValueInternal>`): its gradient and
operand list are the ones read at pop time.  `mul` reads both operand data
values before the first gradient write, exactly as in the source. -/
def runProp : PropFn → Store → Node → Store
  | PropFn.addFn, s, n =>
      let g := n.gradient
      let s1 := addGrad s (n.previous.getD 0 0) g
      addGrad s1 (n.previous.getD 1 0) g
  | PropFn.mulFn, s, n =>
      let ud := (getN s (n.previous.getD 0 0)).data
      let vd := (getN s (n.previous.getD 1 0)).data
      let s1 := addGrad s (n.previous.getD 0 0) (n.gradient * vd)
      addGrad s1 (n.previous.getD 1 0) (n.gradient * ud)

/-- The `while let Some(value) = queue.pop_front()` loop of
`Value::backward`: skip if the visited set reports the node as seen,
otherwise insert the current snapshot, run the propagation rule if any, and
push the operands to the back of the queue.  The returned `List Nat` is the
ghost log of propagation-rule invocations. -/
def backwardLoop : Nat → Store → List (Nat × Snap) → List Nat → List Nat →
    Option (Store × List Nat)
  | 0, _, _, _, _ => none
  | fuel + 1, s, vis, queue, log =>
      match queue with
      | [] => some (s, log)
      | i :: rest =>
          cond (containsB s vis i)
            (backwardLoop fuel s vis rest log)
            (match (getN s i).propagate with
             | none =>
                 backwardLoop fuel s ((i, snapN s i) :: vis)
                   (rest ++ (getN s i).previous) log
             | some f =>
                 backwardLoop fuel (runProp f s (getN s i))
                   ((i, snapN s i) :: vis) (rest ++ (getN s i).previous)
                   (log ++ [i]))

/-- `Value::backward`: enqueue the root, set its gradient to `1.0`
(an overwrite, not an accumulation), then run the loop. -/
def backwardRun (s : Store) (root : Nat) (fuel : Nat) :
    Option (Store × List Nat) :=
  backwardLoop fuel (setGrad s root 1) [] [root] []

/-- `Value::update`: `data += factor * gradient`. -/
def updateN (s : Store) (i : Nat) (factor : ℚ) : Store :=
  modifyN s i (fun n => { n with data := n.data + factor * n.gradient })

/-! ## The tensor layer (`tensor.rs`) -/

/-- `TensorInternal`: element indices, shape, strides, size. -/
structure TensorM where
  data : List Nat
  shape : List Nat
  strides : List Nat
  size : Nat
deriving DecidableEq, Repr

/-- `fn compute_strides`: fold over the reversed shape with its first element
skipped, pushing `last * s`, then reverse. -/
def compute_strides (shape : List Nat) : List Nat :=
  (((shape.reverse).drop 1).foldl
      (fun acc s => acc ++ [(acc.getLast?.getD 1) * s]) [1]).reverse

/-- `Tensor::new(data, shape)`: size is the product of the shape, strides come
from `compute_strides`. -/
def tensorNew (data : List Nat) (shape : List Nat) : TensorM :=
  ⟨data, shape, compute_strides shape, shape.prod⟩

/-- `Tensor::zeros(shape)`: `vec![Value::from(0.0); size]` clones one freshly
allocated zero leaf, so every element is the same node index. -/
def tensorZeros (s : Store) (shape : List Nat) : Store × TensorM :=
  let p := leafB s 0
  (p.1, tensorNew (List.replicate shape.prod p.2) shape)

/-- `Tensor::ones(shape)`: same with a single `1.0` leaf. -/
def tensorOnes (s : Store) (shape : List Nat) : Store × TensorM :=
  let p := leafB s 1
  (p.1, tensorNew (List.replicate shape.prod p.2) shape)

/-- `Tensor::reshape`: `assert_eq!(self.size(), shape.iter().product())`,
then only the `shape` field is overwritten — data, strides and size are left
as they were. -/
def reshape (t : TensorM) (shape : List Nat) : Option TensorM :=
  if t.size = shape.prod then some { t with shape := shape } else none

/-- Modelled from the spec: the row-major stride formula the specification
states for the `strides` field, `stride[i] = product(shape[i+1..])`
(last stride 1); used to compare the code's strides against the spec's. -/
def rowMajorStrides : List Nat → List Nat
  | [] => []
  | _ :: rest => rest.prod :: rowMajorStrides rest

/-- The `zip ... map (|(u, v)| u + v) collect` pattern of the element-wise
tensor operations: allocate one builder node per pair, left to right. -/
def allocZipWith (b : Store → Nat → Nat → Store × Nat) :
    Store → List (Nat × Nat) → Store × List Nat
  | s, [] => (s, [])
  | s, p :: rest =>
      let q := b s p.1 p.2
      let r := allocZipWith b q.1 rest
      (r.1, q.2 :: r.2)

/-- `fn add` for tensors: `assert_eq!(u.shape(), v.shape())`, element-wise
scalar `add`, result takes `u`'s shape, strides and size. -/
def tadd (s : Store) (u v : TensorM) : Option (Store × TensorM) :=
  if u.shape = v.shape then
    let r := allocZipWith addB s (u.data.zip v.data)
    some (r.1, ⟨r.2, u.shape, u.strides, u.size⟩)
  else none

/-- `fn mul` for tensors: same with scalar `mul`. -/
def tmulT (s : Store) (u v : TensorM) : Option (Store × TensorM) :=
  if u.shape = v.shape then
    let r := allocZipWith mulB s (u.data.zip v.data)
    some (r.1, ⟨r.2, u.shape, u.strides, u.size⟩)
  else none

/-- `impl Mul<Value> for Tensor`: build a temporary tensor of `size` clones of
the one scalar node, delegate to element-wise `mul`. -/
def tmulScalar (s : Store) (t : TensorM) (v : Nat) : Option (Store × TensorM) :=
  tmulT s t (tensorNew (List.replicate t.size v) t.shape)

/-- `impl Neg for Tensor`: `self * Value::from(-1.0)`. -/
def tneg (s : Store) (t : TensorM) : Option (Store × TensorM) :=
  let p := leafB s (-1)
  tmulScalar p.1 t p.2

/-- `impl Sub for Tensor`: `self + (-other)`. -/
def tsub (s : Store) (u v : TensorM) : Option (Store × TensorM) :=
  match tneg s v with
  | none => none
  | some p => tadd p.1 u p.2

/-- `Tensor::update`: `Value::update(factor)` on every element in order. -/
def tupdate (s : Store) (t : TensorM) (factor : ℚ) : Store :=
  t.data.foldl (fun st i => updateN st i factor) s

/-! ## Concrete stores used by the claims -/

/-- The graph of `main.rs`: `v1 = 1.2` (index 0), `v2 = 3.4` (index 1),
`v1*v1` (index 2), `v4 = (v1*v1)*v2` (index 3). -/
def mainStore : Store :=
  let p1 := leafB [] (1.2 : ℚ)
  let p2 := leafB p1.1 (3.4 : ℚ)
  let p3 := mulB p2.1 p1.2 p1.2
  let p4 := mulB p3.1 p3.2 p2.2
  p4.1

/-- A diamond with consumers at different depths: leaves `a = 1` (index 0) and
`m = 3` (index 1), shared node `b = a + a` (index 2), `c = b * m` (index 3),
root `= b + c` (index 4).  The root computes `(a+a) + (a+a)*m = 8`, so the
exact partial derivative with respect to `a` is `2 + 2*m = 8`. -/
def diamondStore : Store :=
  let pa := leafB [] (1 : ℚ)
  let pm := leafB pa.1 (3 : ℚ)
  let pb := addB pm.1 pa.2 pa.2
  let pc := mulB pb.1 pb.2 pm.2
  let pr := addB pc.1 pb.2 pc.2
  pr.1

/-- `x = leaf q` (index 0), `y = x * x` (index 1): the shared-use-site square,
with both operand slots of one `mul` pointing at the same node. -/
def squareStore (q : ℚ) : Store :=
  let px := leafB [] q
  let py := mulB px.1 px.2 px.2
  py.1

/-- The same square graph with arbitrary stale gradients `gx` on the leaf and
`gy` on the root, as left behind by an earlier backward pass. -/
def squareStoreStale (q gx gy : ℚ) : Store :=
  setGrad (setGrad (squareStore q) 0 gx) 1 gy

/-- Fresh leaves `u = p` (index 0) and `v = q` (index 1), and `u - v`:
the `-1` constant (index 2), `neg v = mul(v, -1)` (index 3),
`sub = add(u, neg v)` (index 4). -/
def subStore (p q : ℚ) : Store :=
  let pu := leafB [] p
  let pv := leafB pu.1 q
  let ps := subB pv.1 pu.2 pv.2
  ps.1

/-! ## Store lemmas -/

theorem getN_append_lt : ∀ (s : Store) (n : Node) (j : ℕ), j < s.length →
    getN (s ++ [n]) j = getN s j
  | [], _, j, h => absurd h (by simp)
  | _ :: _, _, 0, _ => rfl
  | _ :: rest, n, j + 1, h => getN_append_lt rest n j (by simpa using h)

theorem getN_append_len : ∀ (s : Store) (n : Node), getN (s ++ [n]) s.length = n
  | [], _ => rfl
  | _ :: rest, n => getN_append_len rest n

theorem getN_append_eq (s : Store) (n : Node) (j : ℕ) (h : j = s.length) :
    getN (s ++ [n]) j = n := by
  subst h; exact getN_append_len s n

/-! ## Claim theorems -/

/-- C1.  The claim is false of the code: on the diamond-shaped DAG
`root = b + b*m` with `b = a + a`, `a = 1`, `m = 3` (a node `b` with two
consumers at different depths), `backward()` leaves `a` with gradient `10`,
while the exact partial derivative of the root with respect to `a` — the
derivative of `a ↦ (a + a) + (a + a) * 3` at `1` — is `8`.  The breadth-first
queue propagates `b` before its consumer `c = b * m` has contributed, and the
gradient-sensitive structural hash then fails to recognise `b` as visited, so
`b` propagates a second time. -/
theorem c1_backward_diamond_wrong_gradient :
    (backwardRun diamondStore 4 30).map (fun r => (getN r.1 0).gradient) =
        some 10 ∧
      deriv (fun a : ℝ => (a + a) + (a + a) * 3) 1 = 8 ∧ (10 : ℚ) ≠ 8 := by
  refine ⟨by decide, ?_, by decide⟩
  have h : (fun a : ℝ => (a + a) + (a + a) * 3) = fun a : ℝ => 8 * a := by
    funext a; ring
  rw [h]
  simpa using ((hasDerivAt_id (1 : ℝ)).const_mul (8 : ℝ)).deriv

/-- C2.  The claim is false of the code: in the same diamond run the
propagation rule of node `2` (the shared node `b = a + a`) is invoked twice —
its operands' gradients change between its two enqueueings, so the structural
hash of the visited set no longer matches its insert-time entry. -/
theorem c2_propagate_invoked_twice :
    (backwardRun diamondStore 4 30).map (fun r => r.2.count 2) = some 2 ∧
      ¬ (2 : ℕ) ≤ 1 := by
  exact ⟨by decide, by decide⟩

/-- C4.  The `main.rs` scenario: `a = 1.2`, `b = 3.4`, `c = (a*a)*b` has value
exactly `4.896`, and after `c.backward()` the gradients are exactly
`a ↦ 8.16`, `b ↦ 1.44`, `c ↦ 1`. -/
theorem c4_main_scenario :
    (getN mainStore 3).data = 4.896 ∧
      (backwardRun mainStore 3 20).map
          (fun r =>
            ((getN r.1 0).gradient, (getN r.1 1).gradient,
              (getN r.1 3).gradient)) =
        some (8.16, 1.44, 1) := by
  exact ⟨by decide, by decide⟩

/-- C3, counterexample.  `Tensor::zeros([4])` has strides `[1]`; reshaping it
to `[2, 2]` succeeds (the size matches) but the resulting strides are still
`[1]`, not the row-major strides `[2, 1]` of the new shape: `reshape` never
recomputes strides. -/
theorem c3_reshape_strides_counterexample :
    (reshape (tensorZeros [] [4]).2 [2, 2]).map TensorM.strides = some [1] ∧
      rowMajorStrides [2, 2] = [2, 1] ∧ ([1] : List ℕ) ≠ [2, 1] := by
  exact ⟨by decide, by decide, by decide⟩

/-- C3, amended.  `reshape(shape)` fails exactly when `product(shape)`
differs from the tensor's size (the tensor is then unchanged); on success the
elements, the strides and the size are unchanged and only the shape field
becomes the new shape. -/
theorem c3_reshape_amended (t : TensorM) (ns : List ℕ) :
    (t.size ≠ ns.prod → reshape t ns = none) ∧
      (t.size = ns.prod → reshape t ns = some ⟨t.data, ns, t.strides, t.size⟩) := by
  constructor <;> intro h <;> simp [reshape, h]

/-- Witness for C3: both branches of the amended reshape contract at a
concrete one-element tensor. -/
theorem c3_reshape_amended_witness :
    reshape (tensorNew [0] [1]) [2] = none ∧
      reshape (tensorNew [0] [1]) [1, 1] = some ⟨[0], [1, 1], [1], 1⟩ :=
  ⟨(c3_reshape_amended (tensorNew [0] [1]) [2]).1 (by decide),
    (c3_reshape_amended (tensorNew [0] [1]) [1, 1]).2 (by decide)⟩

/-- C7, counterexample.  For `y = x*x` with `x = 1`: the first `backward()`
leaves `y` with gradient `1`; a second `backward()` without `zero_grad` gives
`x` gradient `4` (the stale `2` plus this pass's `2` — accumulation) but `y`
gradient `1`, not the `1 + 1 = 2` the claim's for-every-node accumulation
demands: the root's stale gradient is overwritten by the `1.0` seed. -/
theorem c7_root_gradient_replaced :
    (backwardRun (squareStore 1) 1 10).bind
        (fun r1 =>
          (backwardRun r1.1 1 10).map
            (fun r2 => ((getN r2.1 0).gradient, (getN r2.1 1).gradient))) =
      some (4, 1) ∧ (1 : ℚ) ≠ 1 + 1 := by
  exact ⟨by decide, by decide⟩

/-- The `-1` constant leaf allocated by `neg`. -/
def negOne : Node := ⟨-1, 0, none, none, [], none⟩

theorem addB_fst (s : Store) (u v : ℕ) :
    (addB s u v).1 = s ++ [addMk (getN s u) (getN s v) u v] := rfl

theorem addB_snd (s : Store) (u v : ℕ) : (addB s u v).2 = s.length := rfl

theorem mulB_fst (s : Store) (u v : ℕ) :
    (mulB s u v).1 = s ++ [mulMk (getN s u) (getN s v) u v] := rfl

theorem mulB_snd (s : Store) (u v : ℕ) : (mulB s u v).2 = s.length := rfl

theorem negB_fst (s : Store) (u : ℕ) :
    (negB s u).1 = (s ++ [negOne]) ++
      [mulMk (getN (s ++ [negOne]) u) (getN (s ++ [negOne]) s.length) u
        s.length] := rfl

theorem negB_snd (s : Store) (u : ℕ) :
    (negB s u).2 = (s ++ [negOne]).length := rfl

theorem subB_fst (s : Store) (u v : ℕ) :
    (subB s u v).1 = (negB s v).1 ++
      [addMk (getN (negB s v).1 u) (getN (negB s v).1 (negB s v).2) u
        (negB s v).2] := rfl

theorem subB_snd (s : Store) (u v : ℕ) :
    (subB s u v).2 = (negB s v).1.length := rfl

theorem length_negB_fst (s : Store) (u : ℕ) :
    (negB s u).1.length = s.length + 2 := by
  rw [negB_fst]; simp

/-- C9.  Every operation builder leaves every node of the incoming store
untouched (in particular its inputs' values), returns a fresh node whose
gradient is `0`, and records its operands left-to-right: `add` and `mul`
record `[u, v]`, `neg u` records `[u, c]` with `c` the fresh `-1` constant,
and `sub u v` records `[u, n]` with `n` the fresh negation node. -/
theorem c9_builders (s : Store) (u v : ℕ) :
    ((∀ j, j < s.length → getN (addB s u v).1 j = getN s j) ∧
      (getN (addB s u v).1 (addB s u v).2).gradient = 0 ∧
      (getN (addB s u v).1 (addB s u v).2).previous = [u, v] ∧
      (getN (addB s u v).1 (addB s u v).2).data =
        (getN s u).data + (getN s v).data) ∧
    ((∀ j, j < s.length → getN (mulB s u v).1 j = getN s j) ∧
      (getN (mulB s u v).1 (mulB s u v).2).gradient = 0 ∧
      (getN (mulB s u v).1 (mulB s u v).2).previous = [u, v] ∧
      (getN (mulB s u v).1 (mulB s u v).2).data =
        (getN s u).data * (getN s v).data) ∧
    ((∀ j, j < s.length → getN (negB s u).1 j = getN s j) ∧
      (getN (negB s u).1 (negB s u).2).gradient = 0 ∧
      (getN (negB s u).1 (negB s u).2).previous = [u, (leafB s (-1)).2]) ∧
    ((∀ j, j < s.length → getN (subB s u v).1 j = getN s j) ∧
      (getN (subB s u v).1 (subB s u v).2).gradient = 0 ∧
      (getN (subB s u v).1 (subB s u v).2).previous = [u, (negB s v).2]) := by
  have hlen : ∀ j, j < s.length → j < (s ++ [negOne]).length := by
    intro j hj
    simp only [List.length_append, List.length_cons, List.length_nil]
    omega
  refine ⟨⟨?_, ?_, ?_, ?_⟩, ⟨?_, ?_, ?_, ?_⟩, ⟨?_, ?_, ?_⟩, ⟨?_, ?_, ?_⟩⟩
  · intro j hj; rw [addB_fst]; exact getN_append_lt s _ j hj
  · rw [addB_fst, addB_snd, getN_append_len]; rfl
  · rw [addB_fst, addB_snd, getN_append_len]; rfl
  · rw [addB_fst, addB_snd, getN_append_len]; rfl
  · intro j hj; rw [mulB_fst]; exact getN_append_lt s _ j hj
  · rw [mulB_fst, mulB_snd, getN_append_len]; rfl
  · rw [mulB_fst, mulB_snd, getN_append_len]; rfl
  · rw [mulB_fst, mulB_snd, getN_append_len]; rfl
  · intro j hj
    rw [negB_fst, getN_append_lt _ _ j (hlen j hj), getN_append_lt s _ j hj]
  · rw [negB_fst, negB_snd, getN_append_len]; rfl
  · rw [negB_fst, negB_snd, getN_append_len]; rfl
  · intro j hj
    rw [subB_fst,
      getN_append_lt _ _ j (by rw [length_negB_fst]; omega),
      negB_fst, getN_append_lt _ _ j (hlen j hj), getN_append_lt s _ j hj]
  · rw [subB_fst, subB_snd, getN_append_len]; rfl
  · rw [subB_fst, subB_snd, getN_append_len]; rfl

/-- Witness for C9 at a concrete one-node store. -/
theorem c9_builders_witness :
    getN (addB [⟨2, 0, none, none, [], none⟩] 0 0).1 0 =
        ⟨2, 0, none, none, [], none⟩ ∧
      (getN (addB [⟨2, 0, none, none, [], none⟩] 0 0).1
          (addB [⟨2, 0, none, none, [], none⟩] 0 0).2).gradient = 0 :=
  ⟨(c9_builders [⟨2, 0, none, none, [], none⟩] 0 0).1.1 0 (by decide),
    (c9_builders [⟨2, 0, none, none, [], none⟩] 0 0).1.2.1⟩

theorem modifyN_length : ∀ (s : Store) (i : ℕ) (f : Node → Node),
    (modifyN s i f).length = s.length
  | [], _, _ => rfl
  | _ :: _, 0, _ => rfl
  | n :: rest, i + 1, f => by
      simp only [modifyN, List.length_cons, modifyN_length rest i f]

theorem getN_modifyN_self : ∀ (s : Store) (i : ℕ) (f : Node → Node),
    i < s.length → getN (modifyN s i f) i = f (getN s i)
  | [], _, _, h => absurd h (by simp)
  | _ :: _, 0, _, _ => rfl
  | _ :: rest, i + 1, f, h => getN_modifyN_self rest i f (by simpa using h)

theorem getD_replicate {α : Type} : ∀ (n i : ℕ) (a d : α), i < n →
    (List.replicate n a).getD i d = a
  | 0, _, _, _, h => absurd h (by simp)
  | _ + 1, 0, _, _, _ => rfl
  | n + 1, i + 1, a, d, h =>
      getD_replicate n i a d (by simpa using Nat.lt_of_succ_lt_succ h)

/-- Applying `Value::update(factor)` `n` times to one node adds
`n * (factor * gradient)` to its data and leaves its gradient alone. -/
theorem update_replicate (factor : ℚ) : ∀ (n : ℕ) (s : Store) (i : ℕ),
    i < s.length →
    (getN ((List.replicate n i).foldl (fun st j => updateN st j factor) s)
          i).data =
        (getN s i).data + (n : ℚ) * (factor * (getN s i).gradient) ∧
      (getN ((List.replicate n i).foldl (fun st j => updateN st j factor) s)
          i).gradient = (getN s i).gradient
  | 0, s, i, _ => by simp
  | n + 1, s, i, h => by
      have h1 : i < (updateN s i factor).length := by
        simpa [updateN, modifyN_length] using h
      have hE : getN (updateN s i factor) i =
          { getN s i with
              data := (getN s i).data + factor * (getN s i).gradient } :=
        getN_modifyN_self s i _ h
      have ih := update_replicate factor n (updateN s i factor) i h1
      constructor
      · rw [List.replicate_succ, List.foldl_cons]
        rw [ih.1, hE]
        push_cast
        ring
      · rw [List.replicate_succ, List.foldl_cons]
        rw [ih.2, hE]

/-- C10.  Every element of `Tensor::zeros(shape)` (and of `ones`) is the same
single shared node — node `0` of the store it allocates — whose data is `0`
(resp. `1`); and `Tensor::update(factor)` on the zeros tensor, after the
shared node's gradient became `g`, applies `data += factor * gradient` to that
one node once per element, i.e. `size = product(shape)` times in total. -/
theorem c10_shared_tensor (shape : List ℕ) (factor g : ℚ) :
    (∀ i, i < (tensorZeros [] shape).2.size →
        (tensorZeros [] shape).2.data.getD i 7 = 0) ∧
      (getN (tensorZeros [] shape).1 0).data = 0 ∧
      (∀ i, i < (tensorOnes [] shape).2.size →
          (tensorOnes [] shape).2.data.getD i 7 = 0) ∧
      (getN (tensorOnes [] shape).1 0).data = 1 ∧
      (getN (tupdate (setGrad (tensorZeros [] shape).1 0 g)
            (tensorZeros [] shape).2 factor) 0).data =
        (shape.prod : ℚ) * (factor * g) := by
  refine ⟨?_, rfl, ?_, rfl, ?_⟩
  · intro i hi
    exact getD_replicate _ i 0 7 hi
  · intro i hi
    exact getD_replicate _ i 0 7 hi
  · have hs : setGrad (tensorZeros [] shape).1 0 g =
        [⟨0, g, none, none, [], none⟩] := rfl
    have hd : (tensorZeros [] shape).2.data = List.replicate shape.prod 0 :=
      rfl
    rw [tupdate, hs, hd]
    have h := (update_replicate factor shape.prod
      [⟨0, g, none, none, [], none⟩] 0 (by simp)).1
    rw [h]
    show (0 : ℚ) + _ * (factor * g) = _
    rw [zero_add]

/-- Witness for C10 at shape `[2]`, `factor = 3`, `g = 5`. -/
theorem c10_shared_tensor_witness :
    (tensorZeros [] [2]).2.data.getD 1 7 = 0 ∧
      (getN (tupdate (setGrad (tensorZeros [] [2]).1 0 5)
            (tensorZeros [] [2]).2 3) 0).data = ((2 : ℕ) : ℚ) * (3 * 5) :=
  ⟨(c10_shared_tensor [2] 3 5).1 1 (by decide),
    (c10_shared_tensor [2] 3 5).2.2.2.2⟩

/-- Unfolding step for the element-wise allocation loop. -/
theorem allocZipWith_cons (b : Store → ℕ → ℕ → Store × ℕ) (s : Store)
    (p : ℕ × ℕ) (rest : List (ℕ × ℕ)) :
    allocZipWith b s (p :: rest) =
      ((allocZipWith b (b s p.1 p.2).1 rest).1,
        (b s p.1 p.2).2 :: (allocZipWith b (b s p.1 p.2).1 rest).2) := rfl

/-- What the element-wise allocation loop produces for a builder of `binB`
shape: the old store is untouched, one node per pair is appended, and the
`k`-th fresh node is the builder node for the `k`-th pair, computed from the
original store. -/
theorem allocZipWith_binB (mk : Node → Node → ℕ → ℕ → Node) :
    ∀ (ps : List (ℕ × ℕ)) (s : Store),
      (∀ k, k < ps.length →
        (ps.getD k (0, 0)).1 < s.length ∧ (ps.getD k (0, 0)).2 < s.length) →
      (allocZipWith (binB mk) s ps).1.length = s.length + ps.length ∧
        (∀ j, j < s.length →
          getN (allocZipWith (binB mk) s ps).1 j = getN s j) ∧
        (allocZipWith (binB mk) s ps).2.length = ps.length ∧
        (∀ k, k < ps.length →
          getN (allocZipWith (binB mk) s ps).1
              ((allocZipWith (binB mk) s ps).2.getD k 0) =
            mk (getN s (ps.getD k (0, 0)).1) (getN s (ps.getD k (0, 0)).2)
              (ps.getD k (0, 0)).1 (ps.getD k (0, 0)).2) := by
  intro ps
  induction ps with
  | nil =>
      intro s h
      refine ⟨by simp [allocZipWith], fun j _ => rfl,
        by simp [allocZipWith], ?_⟩
      intro k hk
      exact absurd hk (by simp)
  | cons p rest ih =>
      intro s h
      have hcons := allocZipWith_cons (binB mk) s p rest
      have hb : binB mk s p.1 p.2 =
          (s ++ [mk (getN s p.1) (getN s p.2) p.1 p.2], s.length) := rfl
      rw [hb] at hcons
      have hs1len : (s ++ [mk (getN s p.1) (getN s p.2) p.1 p.2]).length =
          s.length + 1 := by simp
      have hrest : ∀ k, k < rest.length →
          (rest.getD k (0, 0)).1 <
              (s ++ [mk (getN s p.1) (getN s p.2) p.1 p.2]).length ∧
            (rest.getD k (0, 0)).2 <
              (s ++ [mk (getN s p.1) (getN s p.2) p.1 p.2]).length := by
        intro k hk
        have hx := h (k + 1) (by simpa using Nat.succ_lt_succ hk)
        rw [hs1len]
        exact ⟨Nat.lt_succ_of_lt hx.1, Nat.lt_succ_of_lt hx.2⟩
      obtain ⟨L, F, IL, E⟩ :=
        ih (s ++ [mk (getN s p.1) (getN s p.2) p.1 p.2]) hrest
      refine ⟨?_, ?_, ?_, ?_⟩
      · rw [hcons]
        show (allocZipWith (binB mk) _ rest).1.length = _
        rw [L, hs1len]
        simp only [List.length_cons]
        omega
      · intro j hj
        rw [hcons]
        show getN (allocZipWith (binB mk) _ rest).1 j = getN s j
        rw [F j (by rw [hs1len]; exact Nat.lt_succ_of_lt hj)]
        exact getN_append_lt s _ j hj
      · rw [hcons]
        simpa using IL
      · intro k hk
        rw [hcons]
        match k, hk with
        | 0, _ =>
            show getN (allocZipWith (binB mk) _ rest).1 s.length = _
            rw [F s.length (by rw [hs1len]; exact Nat.lt_succ_self _)]
            exact getN_append_len s _
        | k + 1, hk =>
            have hk1 : k < rest.length := by simpa using Nat.lt_of_succ_lt_succ hk
            show getN (allocZipWith (binB mk) _ rest).1
                ((allocZipWith (binB mk) _ rest).2.getD k 0) = _
            rw [E k hk1]
            have hx : (rest.getD k (0, 0)).1 < s.length ∧
                (rest.getD k (0, 0)).2 < s.length :=
              h (k + 1) (by simpa using Nat.succ_lt_succ hk1)
            show _ = mk (getN s (rest.getD k (0, 0)).1)
              (getN s (rest.getD k (0, 0)).2) (rest.getD k (0, 0)).1
              (rest.getD k (0, 0)).2
            rw [getN_append_lt s _ _ hx.1, getN_append_lt s _ _ hx.2]

/-- The element-wise loop, read off through the two tensors being zipped:
one fresh builder node per element pair, built from the original store. -/
theorem tbin_spec (mk : Node → Node → ℕ → ℕ → Node) (s : Store)
    (u v : TensorM) (hu : ∀ id ∈ u.data, id < s.length)
    (hv : ∀ id ∈ v.data, id < s.length) :
    (allocZipWith (binB mk) s (u.data.zip v.data)).2.length =
        (u.data.zip v.data).length ∧
      ∀ k, k < (u.data.zip v.data).length →
        getN (allocZipWith (binB mk) s (u.data.zip v.data)).1
            ((allocZipWith (binB mk) s (u.data.zip v.data)).2.getD k 0) =
          mk (getN s (u.data.getD k 0)) (getN s (v.data.getD k 0))
            (u.data.getD k 0) (v.data.getD k 0) := by
  have hidx : ∀ k, k < (u.data.zip v.data).length →
      ((u.data.zip v.data).getD k (0, 0)).1 < s.length ∧
        ((u.data.zip v.data).getD k (0, 0)).2 < s.length := by
    intro k hk
    have hku : k < u.data.length := by rw [List.length_zip] at hk; omega
    have hkv : k < v.data.length := by rw [List.length_zip] at hk; omega
    rw [List.getD_eq_getElem _ _ hk, List.getElem_zip]
    exact ⟨hu _ (List.getElem_mem hku), hv _ (List.getElem_mem hkv)⟩
  obtain ⟨_, _, IL, E⟩ := allocZipWith_binB mk (u.data.zip v.data) s hidx
  refine ⟨IL, ?_⟩
  intro k hk
  have hku : k < u.data.length := by rw [List.length_zip] at hk; omega
  have hkv : k < v.data.length := by rw [List.length_zip] at hk; omega
  have hz : (u.data.zip v.data).getD k (0, 0) =
      (u.data.getD k 0, v.data.getD k 0) := by
    rw [List.getD_eq_getElem _ _ hk, List.getElem_zip,
      List.getD_eq_getElem _ _ hku, List.getD_eq_getElem _ _ hkv]
  have hE := E k hk
  rw [hz] at hE
  exact hE

/-- Four leaves `1, 2, 3, 4` (indices 0..3) for the concrete array
scenarios. -/
def c6Leaves : Store :=
  (leafB (leafB (leafB (leafB [] 1).1 2).1 3).1 4).1

/-- The array `[1, 2]` over `c6Leaves`. -/
def c6A : TensorM := tensorNew [0, 1] [2]

/-- The array `[3, 4]` over `c6Leaves`. -/
def c6B : TensorM := tensorNew [2, 3] [2]

/-- C6.  Element-wise tensor `add`/`mul` fail on mismatched shapes; on equal
shapes they produce a tensor of that shape whose `k`-th element is a fresh
scalar-builder node over the inputs' `k`-th elements; concretely
`[1,2]+[3,4] = [4,6]`, `[1,2]*[3,4] = [3,8]`, `[1,2]*3 = [3,6]`,
`-[1,2] = [-1,-2]`, `[1,2]-[3,4] = [-2,-2]`. -/
theorem c6_elementwise :
    (∀ (s : Store) (u v : TensorM), u.shape ≠ v.shape →
        tadd s u v = none ∧ tmulT s u v = none) ∧
      (∀ (s : Store) (u v : TensorM), u.shape = v.shape →
          (∀ id ∈ u.data, id < s.length) → (∀ id ∈ v.data, id < s.length) →
          ∃ s2 t, tadd s u v = some (s2, t) ∧ t.shape = u.shape ∧
            t.strides = u.strides ∧ t.size = u.size ∧
            t.data.length = (u.data.zip v.data).length ∧
            ∀ k, k < (u.data.zip v.data).length →
              getN s2 (t.data.getD k 0) =
                addMk (getN s (u.data.getD k 0)) (getN s (v.data.getD k 0))
                  (u.data.getD k 0) (v.data.getD k 0)) ∧
      (∀ (s : Store) (u v : TensorM), u.shape = v.shape →
          (∀ id ∈ u.data, id < s.length) → (∀ id ∈ v.data, id < s.length) →
          ∃ s2 t, tmulT s u v = some (s2, t) ∧ t.shape = u.shape ∧
            t.strides = u.strides ∧ t.size = u.size ∧
            t.data.length = (u.data.zip v.data).length ∧
            ∀ k, k < (u.data.zip v.data).length →
              getN s2 (t.data.getD k 0) =
                mulMk (getN s (u.data.getD k 0)) (getN s (v.data.getD k 0))
                  (u.data.getD k 0) (v.data.getD k 0)) ∧
      (tadd c6Leaves c6A c6B).map
          (fun r => r.2.data.map (fun i => (getN r.1 i).data)) =
        some [4, 6] ∧
      (tmulT c6Leaves c6A c6B).map
          (fun r => r.2.data.map (fun i => (getN r.1 i).data)) =
        some [3, 8] ∧
      (tmulScalar c6Leaves c6A 2).map
          (fun r => r.2.data.map (fun i => (getN r.1 i).data)) =
        some [3, 6] ∧
      (tneg c6Leaves c6A).map
          (fun r => r.2.data.map (fun i => (getN r.1 i).data)) =
        some [-1, -2] ∧
      (tsub c6Leaves c6A c6B).map
          (fun r => r.2.data.map (fun i => (getN r.1 i).data)) =
        some [-2, -2] := by
  refine ⟨?_, ?_, ?_, by decide, by decide, by decide, by decide, by decide⟩
  · intro s u v hsh
    constructor <;> simp [tadd, tmulT, hsh]
  · intro s u v hsh hu hv
    obtain ⟨IL, E⟩ := tbin_spec addMk s u v hu hv
    refine ⟨(allocZipWith (binB addMk) s (u.data.zip v.data)).1,
      ⟨(allocZipWith (binB addMk) s (u.data.zip v.data)).2, u.shape,
        u.strides, u.size⟩, ?_, rfl, rfl, rfl, IL, E⟩
    simp [tadd, hsh]
    exact ⟨rfl, rfl⟩
  · intro s u v hsh hu hv
    obtain ⟨IL, E⟩ := tbin_spec mulMk s u v hu hv
    refine ⟨(allocZipWith (binB mulMk) s (u.data.zip v.data)).1,
      ⟨(allocZipWith (binB mulMk) s (u.data.zip v.data)).2, u.shape,
        u.strides, u.size⟩, ?_, rfl, rfl, rfl, IL, E⟩
    simp [tmulT, hsh]
    exact ⟨rfl, rfl⟩

/-- One unfolding step of the backward loop. -/
theorem backwardLoop_step (fuel : ℕ) (s : Store) (vis : List (ℕ × Snap))
    (i : ℕ) (rest log : List ℕ) :
    backwardLoop (fuel + 1) s vis (i :: rest) log =
      cond (containsB s vis i)
        (backwardLoop fuel s vis rest log)
        (match (getN s i).propagate with
         | none =>
             backwardLoop fuel s ((i, snapN s i) :: vis)
               (rest ++ (getN s i).previous) log
         | some f =>
             backwardLoop fuel (runProp f s (getN s i))
               ((i, snapN s i) :: vis) (rest ++ (getN s i).previous)
               (log ++ [i])) := rfl

/-- Once the queue holds only leaves (no propagation rule, no operands), the
loop drains it without touching the store or the log, whatever the visited
set says. -/
theorem backwardLoop_leaves :
    ∀ (fuel : ℕ) (s : Store) (vis : List (ℕ × Snap)) (queue log : List ℕ),
      (∀ i ∈ queue, (getN s i).propagate = none ∧ (getN s i).previous = []) →
      queue.length < fuel →
      backwardLoop fuel s vis queue log = some (s, log)
  | 0, _, _, _, _, _, hl => absurd hl (by omega)
  | fuel + 1, s, vis, [], log, _, _ => rfl
  | fuel + 1, s, vis, i :: rest, log, h, hl => by
      have h0 := h i (List.mem_cons_self i rest)
      have ht : ∀ j ∈ rest,
          (getN s j).propagate = none ∧ (getN s j).previous = [] :=
        fun j hj => h j (List.mem_cons_of_mem i hj)
      have hlen : rest.length < fuel := by
        simpa using Nat.lt_of_succ_lt_succ hl
      rw [backwardLoop_step, h0.1, h0.2]
      cases containsB s vis i with
      | false =>
          show backwardLoop fuel s _ (rest ++ []) log = _
          rw [List.append_nil]
          exact backwardLoop_leaves fuel s _ rest log ht hlen
      | true => exact backwardLoop_leaves fuel s vis rest log ht hlen

/-- The store of `subStore p q` right after `backward` has seeded the root
gradient: the two leaves, the `-1` constant, the negation product, and the
sub node with gradient `1`. -/
def subS0 (p q : ℚ) : Store :=
  [⟨p, 0, none, none, [], none⟩,
   ⟨q, 0, none, none, [], none⟩,
   ⟨-1, 0, none, none, [], none⟩,
   ⟨q * -1, 0, none, some Operation.mul, [1, 2], some PropFn.mulFn⟩,
   ⟨p + q * -1, 1, none, some Operation.add, [0, 3], some PropFn.addFn⟩]

/-- The same store after the sub node propagated: `u` and the negation node
have gradient `0 + 1` (kept in unreduced form so every step below is a
definitional unfolding of the loop). -/
def subS1 (p q : ℚ) : Store :=
  [⟨p, 0 + 1, none, none, [], none⟩,
   ⟨q, 0, none, none, [], none⟩,
   ⟨-1, 0, none, none, [], none⟩,
   ⟨q * -1, 0 + 1, none, some Operation.mul, [1, 2], some PropFn.mulFn⟩,
   ⟨p + q * -1, 1, none, some Operation.add, [0, 3], some PropFn.addFn⟩]

/-- The same store after the negation node propagated: `v` has gradient
`0 + (0 + 1) * -1` (that is, `-1`) and the `-1` constant has gradient
`0 + (0 + 1) * q`. -/
def subS3 (p q : ℚ) : Store :=
  [⟨p, 0 + 1, none, none, [], none⟩,
   ⟨q, 0 + (0 + 1) * -1, none, none, [], none⟩,
   ⟨-1, 0 + (0 + 1) * q, none, none, [], none⟩,
   ⟨q * -1, 0 + 1, none, some Operation.mul, [1, 2], some PropFn.mulFn⟩,
   ⟨p + q * -1, 1, none, some Operation.add, [0, 3], some PropFn.addFn⟩]

set_option maxHeartbeats 1000000 in
/-- The backward run over `u - v`, computed in three explicit steps followed
by draining the two remaining leaves. -/
theorem subStore_backward (p q : ℚ) :
    backwardRun (subStore p q) 4 12 = some (subS3 p q, [4, 3]) := by
  have tail : ∀ (vis : List (ℕ × Snap)) (log : List ℕ),
      backwardLoop 9 (subS3 p q) vis [1, 2] log = some (subS3 p q, log) := by
    intro vis log
    apply backwardLoop_leaves
    · intro i hi
      have hi2 : i = 1 ∨ i = 2 := by simpa using hi
      rcases hi2 with h | h <;> subst h <;> exact ⟨rfl, rfl⟩
    · simp
  calc backwardRun (subStore p q) 4 12
      = backwardLoop 12 (subS0 p q) [] [4] [] := rfl
    _ = backwardLoop 11 (subS1 p q) [(4, snapN (subS0 p q) 4)] [0, 3] [4] := by
        rw [backwardLoop_step,
          show containsB (subS0 p q) [] 4 = false from rfl]
        rfl
    _ = backwardLoop 10 (subS1 p q)
          [(0, snapN (subS1 p q) 0), (4, snapN (subS0 p q) 4)] [3] [4] := by
        rw [backwardLoop_step]
        have hc : containsB (subS1 p q) [(4, snapN (subS0 p q) 4)] 0 =
            false := by
          simp [containsB, snapN, snap, getN, subS1, subS0, snapBeqF, obeq,
            lbeq, pairwiseAll]
        rw [hc]
        rfl
    _ = backwardLoop 9 (subS3 p q)
          [(3, snapN (subS1 p q) 3), (0, snapN (subS1 p q) 0),
            (4, snapN (subS0 p q) 4)] [1, 2] [4, 3] := by
        rw [backwardLoop_step]
        have hc : containsB (subS1 p q)
            [(0, snapN (subS1 p q) 0), (4, snapN (subS0 p q) 4)] 3 =
              false := by
          simp [containsB, snapN, snap, getN, subS1, subS0, snapBeqF, obeq,
            lbeq, pairwiseAll]
        rw [hc]
        rfl
    _ = some (subS3 p q, [4, 3]) := tail _ _

set_option maxHeartbeats 1000000 in
/-- C5.  For every leaf `x` (arbitrary value `q`, gradient `0`), building
`y = x * x` — the one `mul` node holding the same node in both operand
slots — and running `backward()` on `y` leaves `x` with gradient exactly
`2 * q`: the two use-site contributions `q` and `q` are summed, not
overwritten; the root ends with gradient `1`. -/
theorem c5_square_gradient (q : ℚ) :
    (backwardRun (squareStore q) 1 10).map
        (fun r => ((getN r.1 0).gradient, (getN r.1 1).gradient)) =
      some (2 * q, 1) := by
  simp [backwardRun, backwardLoop, containsB, snapN, snap, getN, modifyN,
    setGrad, addGrad, runProp, squareStore, leafB, mulB, binB, mulMk, alloc,
    snapBeqF, pairwiseAll, obeq, lbeq, List.any]
  ring

set_option maxHeartbeats 1000000 in
/-- C7, amended.  On the square graph `y = x * x` with arbitrary stale
gradients `gx` on the leaf and `gy` on the root, a second `backward()`
accumulates into the non-root node — `x` ends with `gx + 2 * q`, its stale
gradient plus this pass's contribution — while the root's stale gradient `gy`
is discarded: `y` ends with exactly `1`, the fresh seed, whatever `gy` was. -/
theorem c7_accumulation_amended (q gx gy : ℚ) :
    (backwardRun (squareStoreStale q gx gy) 1 10).map
        (fun r => ((getN r.1 0).gradient, (getN r.1 1).gradient)) =
      some (gx + 2 * q, 1) := by
  simp [backwardRun, backwardLoop, containsB, snapN, snap, getN, modifyN,
    setGrad, addGrad, runProp, squareStore, squareStoreStale, leafB, mulB,
    binB, mulMk, alloc, snapBeqF, pairwiseAll, obeq, lbeq, List.any]
  ring

/-- C8.  `u - v` is realized as `Add(u, Mul(v, constant(-1)))`: the sub node
is an `Add` over `u` and the negation node, the negation node is a `Mul` over
`v` and the fresh `-1` constant; the composition reproduces first-class
values and gradients exactly: the sub node's value is `p - q`, and after
`backward()` the gradients are `u ↦ 1` and `v ↦ -1`, for all leaf values. -/
theorem c8_neg_sub_composition (p q : ℚ) :
    (getN (subStore p q) 4).data = p - q ∧
      (getN (subStore p q) 4).operation = some Operation.add ∧
      (getN (subStore p q) 4).previous = [0, 3] ∧
      (getN (subStore p q) 3).operation = some Operation.mul ∧
      (getN (subStore p q) 3).previous = [1, 2] ∧
      (getN (subStore p q) 2).data = -1 ∧
      (getN (subStore p q) 2).previous = [] ∧
      (backwardRun (subStore p q) 4 12).map
          (fun r => ((getN r.1 0).gradient, (getN r.1 1).gradient)) =
        some (1, -1) := by
  refine ⟨?_, rfl, rfl, rfl, rfl, rfl, rfl, ?_⟩
  · show p + q * -1 = p - q
    ring
  · rw [subStore_backward]
    show some ((0 : ℚ) + 1, (0 : ℚ) + (0 + 1) * -1) = some (1, -1)
    norm_num

/-- Witness for C6: the shape-mismatch branches at concrete tensors, and the
success branches at the concrete `[1,2]`, `[3,4]` arrays. -/
theorem c6_elementwise_witness :
    (tadd [] (tensorNew [] [1]) (tensorNew [] [2]) = none ∧
        tmulT [] (tensorNew [] [1]) (tensorNew [] [2]) = none) ∧
      (∃ s2 t, tadd c6Leaves c6A c6B = some (s2, t) ∧ t.shape = c6A.shape ∧
        t.strides = c6A.strides ∧ t.size = c6A.size ∧
        t.data.length = (c6A.data.zip c6B.data).length ∧
        ∀ k, k < (c6A.data.zip c6B.data).length →
          getN s2 (t.data.getD k 0) =
            addMk (getN c6Leaves (c6A.data.getD k 0))
              (getN c6Leaves (c6B.data.getD k 0)) (c6A.data.getD k 0)
              (c6B.data.getD k 0)) :=
  ⟨c6_elementwise.1 [] (tensorNew [] [1]) (tensorNew [] [2]) (by decide),
    c6_elementwise.2.1 c6Leaves c6A c6B (by decide) (by decide) (by decide)⟩

end Regrad
